import Mathlib

/-!
Verification of the `cauchy` scalar-trait library (`src/lib.rs`) against its
natural-language specification.

The library defines a `Scalar` trait unifying the four adapters
`f32`, `Complex32`, `f64`, `Complex64`, plus a `RealScalar` refinement adding
IEEE-754 limit values and mathematical constants.  All adapter methods
delegate to the host float / complex libraries (`num_traits::Float`,
`num_complex::Complex`, Rust `std`).

Embedding conventions:

* A floating-point value is modelled by `Cauchy.Fl`: either NaN, +infinity,
  -infinity, or a finite value carried as an exact rational.  Negative zero
  is not distinguished from zero, and finite results of the basic rational
  operations are kept exact instead of rounded; every claim proved below is
  invariant under this abstraction (each one either compares two expressions
  built from the same modelled operations, or concerns special-value /
  Option-structure behaviour that rounding does not affect, or — for the
  constant-table claim — is stated directly about the exact rational values
  of the constants).
* Host transcendental routines (`sin`, `cos`, `exp`, ...) are not specified
  bit-for-bit by the Rust documentation, so their finite branches are taken
  as parameters (bundled in `Cauchy.HostFns`); the IEEE-754 special-value
  structure (NaN propagation, domain errors producing NaN, `ln 0 = -inf`,
  `pow(x, 0) = 1`, ...) is part of the model itself.
* Both bit-widths share one value model: width only matters for the cast
  saturation bounds and the constant table, which are handled explicitly
  with 32-bit and 64-bit variants.
-/

namespace Cauchy

/-- Model of an IEEE-754 binary floating-point datum (either width): NaN,
the two infinities, or a finite value carried as an exact rational. -/
inductive Fl where
  | nan : Fl
  | inf : Fl
  | negInf : Fl
  | finite : ℚ → Fl
deriving DecidableEq

/-- A modelled float is finite iff it is neither NaN nor an infinity. -/
def Fl.isFinite : Fl → Bool
  | Fl.finite _ => true
  | _ => false

/-- IEEE-754 negation of a modelled float (Rust unary `-` on `f32`/`f64`). -/
def negF : Fl → Fl
  | Fl.nan => Fl.nan
  | Fl.inf => Fl.negInf
  | Fl.negInf => Fl.inf
  | Fl.finite q => Fl.finite (-q)

/-- IEEE-754 addition on modelled floats (Rust `+` on `f32`/`f64`): NaN
propagates, opposite infinities give NaN, finite sums are kept exact. -/
def addF : Fl → Fl → Fl
  | Fl.nan, _ => Fl.nan
  | _, Fl.nan => Fl.nan
  | Fl.inf, Fl.negInf => Fl.nan
  | Fl.negInf, Fl.inf => Fl.nan
  | Fl.inf, _ => Fl.inf
  | _, Fl.inf => Fl.inf
  | Fl.negInf, _ => Fl.negInf
  | _, Fl.negInf => Fl.negInf
  | Fl.finite a, Fl.finite b => Fl.finite (a + b)

/-- IEEE-754 subtraction on modelled floats (Rust `-`), as addition of the
negation, which has the same IEEE-754 special-value table. -/
def subF (a b : Fl) : Fl := addF a (negF b)

/-- IEEE-754 multiplication on modelled floats (Rust `*` on `f32`/`f64`):
NaN propagates, infinity times zero gives NaN, signs follow IEEE-754,
finite products are kept exact. -/
def mulF : Fl → Fl → Fl
  | Fl.nan, _ => Fl.nan
  | _, Fl.nan => Fl.nan
  | Fl.inf, Fl.inf => Fl.inf
  | Fl.inf, Fl.negInf => Fl.negInf
  | Fl.negInf, Fl.inf => Fl.negInf
  | Fl.negInf, Fl.negInf => Fl.inf
  | Fl.inf, Fl.finite b =>
      if 0 < b then Fl.inf else if b < 0 then Fl.negInf else Fl.nan
  | Fl.finite a, Fl.inf =>
      if 0 < a then Fl.inf else if a < 0 then Fl.negInf else Fl.nan
  | Fl.negInf, Fl.finite b =>
      if 0 < b then Fl.negInf else if b < 0 then Fl.inf else Fl.nan
  | Fl.finite a, Fl.negInf =>
      if 0 < a then Fl.negInf else if a < 0 then Fl.inf else Fl.nan
  | Fl.finite a, Fl.finite b => Fl.finite (a * b)

/-- IEEE-754 division on modelled floats (Rust `/` on `f32`/`f64`): NaN
propagates, `0/0` and `inf/inf` give NaN, division of a nonzero finite
value by zero gives a signed infinity (the zero is treated as `+0`, since
the model does not carry a negative zero), finite quotients are exact. -/
def divF : Fl → Fl → Fl
  | Fl.nan, _ => Fl.nan
  | _, Fl.nan => Fl.nan
  | Fl.inf, Fl.inf => Fl.nan
  | Fl.inf, Fl.negInf => Fl.nan
  | Fl.negInf, Fl.inf => Fl.nan
  | Fl.negInf, Fl.negInf => Fl.nan
  | Fl.inf, Fl.finite b => if b < 0 then Fl.negInf else Fl.inf
  | Fl.negInf, Fl.finite b => if b < 0 then Fl.inf else Fl.negInf
  | Fl.finite _, Fl.inf => Fl.finite 0
  | Fl.finite _, Fl.negInf => Fl.finite 0
  | Fl.finite a, Fl.finite b =>
      if b = 0 then
        if a = 0 then Fl.nan else if 0 < a then Fl.inf else Fl.negInf
      else Fl.finite (a / b)

/-- IEEE-754 ordered comparison `<` on modelled floats (Rust `<`, i.e. the
`PartialOrd` instance of `f32`/`f64`): any comparison involving NaN is
false. -/
def ltF : Fl → Fl → Bool
  | Fl.nan, _ => false
  | _, Fl.nan => false
  | Fl.negInf, Fl.negInf => false
  | Fl.negInf, _ => true
  | _, Fl.negInf => false
  | Fl.inf, _ => false
  | Fl.finite _, Fl.inf => true
  | Fl.finite a, Fl.finite b => decide (a < b)

/-- IEEE-754 equality `==` on modelled floats (Rust `==`, i.e. the
`PartialEq` instance of `f32`/`f64`): NaN compares unequal to everything,
including itself. -/
def eqF : Fl → Fl → Bool
  | Fl.nan, _ => false
  | _, Fl.nan => false
  | Fl.inf, Fl.inf => true
  | Fl.negInf, Fl.negInf => true
  | Fl.finite a, Fl.finite b => decide (a = b)
  | _, _ => false

/-- Model of a `num_complex::Complex` value: an ordered pair of modelled
floats (`re`, `im`). -/
structure Cx where
  re : Fl
  im : Fl
deriving DecidableEq

/-- Componentwise complex addition, from `num_complex` `impl Add for
Complex`. -/
def addC (z w : Cx) : Cx := ⟨addF z.re w.re, addF z.im w.im⟩

/-- Componentwise complex subtraction, from `num_complex` `impl Sub for
Complex`. -/
def subC (z w : Cx) : Cx := ⟨subF z.re w.re, subF z.im w.im⟩

/-- Complex multiplication `(a+bi)(c+di) = (ac-bd) + (ad+bc)i`, from
`num_complex` `impl Mul for Complex`. -/
def mulC (z w : Cx) : Cx :=
  ⟨subF (mulF z.re w.re) (mulF z.im w.im),
   addF (mulF z.re w.im) (mulF z.im w.re)⟩

/-- Componentwise complex negation, from `num_complex` `impl Neg for
Complex`. -/
def negC (z : Cx) : Cx := ⟨negF z.re, negF z.im⟩

/-- The complex zero `0 + 0i` (`num_complex` `Zero::zero`). -/
def zeroC : Cx := ⟨Fl.finite 0, Fl.finite 0⟩

/-- The complex multiplicative identity `1 + 0i` (`num_complex`
`One::one`). -/
def oneC : Cx := ⟨Fl.finite 1, Fl.finite 0⟩

/-- The imaginary unit `0 + 1i` (`num_complex` `Complex::i`). -/
def iC : Cx := ⟨Fl.finite 0, Fl.finite 1⟩

/-- Squared norm `re*re + im*im`, from `num_complex` `Complex::norm_sqr`. -/
def norm_sqrC (z : Cx) : Fl := addF (mulF z.re z.re) (mulF z.im z.im)

/-- Complex conjugate `re - im*i`, from `num_complex` `Complex::conj`. -/
def conjC (z : Cx) : Cx := ⟨z.re, negF z.im⟩

/-- Complex division via the squared norm of the divisor, from
`num_complex` `impl Div for Complex`:
`(a+bi)/(c+di) = ((ac+bd) + (bc-ad)i) / (c*c+d*d)`. -/
def divC (z w : Cx) : Cx :=
  ⟨divF (addF (mulF z.re w.re) (mulF z.im w.im)) (norm_sqrC w),
   divF (subF (mulF z.im w.re) (mulF z.re w.im)) (norm_sqrC w)⟩

/-- Multiplicative inverse, from `num_complex` `Complex::inv`:
`conj(z) / norm_sqr(z)` componentwise. -/
def invC (z : Cx) : Cx :=
  ⟨divF z.re (norm_sqrC z), divF (negF z.im) (norm_sqrC z)⟩

/-- Division of a complex value by a real scalar, componentwise, from
`num_complex` `Complex::unscale`. -/
def unscaleC (z : Cx) (t : Fl) : Cx := ⟨divF z.re t, divF z.im t⟩

/-!
Host transcendental routines.  The Rust adapters delegate these to the
platform math library through `num_traits::Float`; only their IEEE-754
special-value behaviour is documented, not the rounded finite results, so
the finite branches are parameters, bundled in `HostFns`.  A routine whose
finite result can overflow (`exp`, `sinh`, `cosh`, `powf`, `hypot`) maps
into `Fl`; one whose finite result is always finite maps into `ℚ`.
-/

/-- Bundle of the host math library's finite-input branches, one field per
routine the adapters delegate to. -/
structure HostFns where
  fsqrt : ℚ → ℚ
  fexp : ℚ → Fl
  fln : ℚ → ℚ
  fsin : ℚ → ℚ
  fcos : ℚ → ℚ
  ftan : ℚ → ℚ
  fasin : ℚ → ℚ
  facos : ℚ → ℚ
  fatan : ℚ → ℚ
  fatanInf : ℚ
  fsinh : ℚ → Fl
  fcosh : ℚ → Fl
  ftanh : ℚ → ℚ
  fasinh : ℚ → ℚ
  facosh : ℚ → ℚ
  fatanh : ℚ → ℚ
  fpow : ℚ → ℚ → Fl
  fhypot : ℚ → ℚ → Fl
  fatan2 : Fl → Fl → ℚ

/-- Host real square root (`num_traits::Float::sqrt`): NaN for negative
arguments (IEEE-754 domain error), infinity maps to infinity. -/
def sqrtF (f : ℚ → ℚ) : Fl → Fl
  | Fl.nan => Fl.nan
  | Fl.inf => Fl.inf
  | Fl.negInf => Fl.nan
  | Fl.finite q => if q < 0 then Fl.nan else Fl.finite (f q)

/-- Host real exponential (`num_traits::Float::exp`): `exp(-inf) = 0`,
`exp(inf) = inf`, NaN propagates. -/
def expF (f : ℚ → Fl) : Fl → Fl
  | Fl.nan => Fl.nan
  | Fl.inf => Fl.inf
  | Fl.negInf => Fl.finite 0
  | Fl.finite q => f q

/-- Host real natural logarithm (`num_traits::Float::ln`): `ln 0 = -inf`,
negative arguments give NaN (IEEE-754 domain error), `ln inf = inf`. -/
def lnF (f : ℚ → ℚ) : Fl → Fl
  | Fl.nan => Fl.nan
  | Fl.inf => Fl.inf
  | Fl.negInf => Fl.nan
  | Fl.finite q =>
      if q < 0 then Fl.nan else if q = 0 then Fl.negInf else Fl.finite (f q)

/-- Host real sine (`num_traits::Float::sin`): NaN on both infinities
(IEEE-754 domain error) and on NaN. -/
def sinF (f : ℚ → ℚ) : Fl → Fl
  | Fl.finite q => Fl.finite (f q)
  | _ => Fl.nan

/-- Host real cosine (`num_traits::Float::cos`): same special-value table
as sine. -/
def cosF (f : ℚ → ℚ) : Fl → Fl
  | Fl.finite q => Fl.finite (f q)
  | _ => Fl.nan

/-- Host real tangent (`num_traits::Float::tan`): same special-value table
as sine (a finite float argument is never an exact odd multiple of pi/2,
so the finite branch stays finite). -/
def tanF (f : ℚ → ℚ) : Fl → Fl
  | Fl.finite q => Fl.finite (f q)
  | _ => Fl.nan

/-- Host real arcsine (`num_traits::Float::asin`): NaN outside `[-1, 1]`
and on the infinities. -/
def asinF (f : ℚ → ℚ) : Fl → Fl
  | Fl.finite q => if 1 < |q| then Fl.nan else Fl.finite (f q)
  | _ => Fl.nan

/-- Host real arccosine (`num_traits::Float::acos`): NaN outside `[-1, 1]`
and on the infinities. -/
def acosF (f : ℚ → ℚ) : Fl → Fl
  | Fl.finite q => if 1 < |q| then Fl.nan else Fl.finite (f q)
  | _ => Fl.nan

/-- Host real arctangent (`num_traits::Float::atan`): total, with
`atan(±inf) = ±(rounded pi/2)`; the rounded value is the `fatanInf`
parameter. -/
def atanF (f : ℚ → ℚ) (infVal : ℚ) : Fl → Fl
  | Fl.nan => Fl.nan
  | Fl.inf => Fl.finite infVal
  | Fl.negInf => Fl.finite (-infVal)
  | Fl.finite q => Fl.finite (f q)

/-- Host real hyperbolic sine (`num_traits::Float::sinh`):
`sinh(±inf) = ±inf`, finite results may overflow. -/
def sinhF (f : ℚ → Fl) : Fl → Fl
  | Fl.nan => Fl.nan
  | Fl.inf => Fl.inf
  | Fl.negInf => Fl.negInf
  | Fl.finite q => f q

/-- Host real hyperbolic cosine (`num_traits::Float::cosh`):
`cosh(±inf) = inf`, finite results may overflow. -/
def coshF (f : ℚ → Fl) : Fl → Fl
  | Fl.nan => Fl.nan
  | Fl.inf => Fl.inf
  | Fl.negInf => Fl.inf
  | Fl.finite q => f q

/-- Host real hyperbolic tangent (`num_traits::Float::tanh`):
`tanh(±inf) = ±1` exactly. -/
def tanhF (f : ℚ → ℚ) : Fl → Fl
  | Fl.nan => Fl.nan
  | Fl.inf => Fl.finite 1
  | Fl.negInf => Fl.finite (-1)
  | Fl.finite q => Fl.finite (f q)

/-- Host real inverse hyperbolic sine (`num_traits::Float::asinh`): total,
`asinh(±inf) = ±inf`. -/
def asinhF (f : ℚ → ℚ) : Fl → Fl
  | Fl.nan => Fl.nan
  | Fl.inf => Fl.inf
  | Fl.negInf => Fl.negInf
  | Fl.finite q => Fl.finite (f q)

/-- Host real inverse hyperbolic cosine (`num_traits::Float::acosh`): NaN
below `1` (IEEE-754 domain error), `acosh(inf) = inf`. -/
def acoshF (f : ℚ → ℚ) : Fl → Fl
  | Fl.nan => Fl.nan
  | Fl.inf => Fl.inf
  | Fl.negInf => Fl.nan
  | Fl.finite q => if q < 1 then Fl.nan else Fl.finite (f q)

/-- Host real inverse hyperbolic tangent (`num_traits::Float::atanh`):
NaN outside `[-1, 1]`, `atanh(±1) = ±inf`. -/
def atanhF (f : ℚ → ℚ) : Fl → Fl
  | Fl.finite q =>
      if 1 < |q| then Fl.nan
      else if q = 1 then Fl.inf
      else if q = -1 then Fl.negInf
      else Fl.finite (f q)
  | _ => Fl.nan

/-- Host real power function (`num_traits::Float::powf`, the platform
`pow`): the IEEE-754 special cases are part of the model — `pow(x, 0) = 1`
and `pow(1, y) = 1` for every `x`, `y` (even NaN), NaN otherwise
propagates, zero and infinite operands follow the IEEE-754 `pow` table,
and a negative finite base with a non-integer finite exponent is a domain
error (NaN); the remaining finite computation is the `fpow` parameter. -/
def powfF (fpow : ℚ → ℚ → Fl) (x y : Fl) : Fl :=
  if y = Fl.finite 0 then Fl.finite 1
  else if x = Fl.finite 1 then Fl.finite 1
  else
    match x, y with
    | Fl.nan, _ => Fl.nan
    | _, Fl.nan => Fl.nan
    | Fl.inf, Fl.inf => Fl.inf
    | Fl.inf, Fl.negInf => Fl.finite 0
    | Fl.inf, Fl.finite b => if 0 < b then Fl.inf else Fl.finite 0
    | Fl.negInf, Fl.inf => Fl.inf
    | Fl.negInf, Fl.negInf => Fl.finite 0
    | Fl.negInf, Fl.finite b =>
        if 0 < b then (if b.den = 1 ∧ Odd b.num then Fl.negInf else Fl.inf)
        else Fl.finite 0
    | Fl.finite a, Fl.inf =>
        if |a| < 1 then Fl.finite 0 else if |a| = 1 then Fl.finite 1 else Fl.inf
    | Fl.finite a, Fl.negInf =>
        if |a| < 1 then Fl.inf else if |a| = 1 then Fl.finite 1 else Fl.finite 0
    | Fl.finite a, Fl.finite b =>
        if a = 0 then (if 0 < b then Fl.finite 0 else Fl.inf)
        else if a < 0 ∧ b.den ≠ 1 then Fl.nan
        else fpow a b

/-- Host `hypot` (`num_traits::Float::hypot`, used by
`num_complex::Complex::norm`): infinity dominates even NaN, NaN otherwise
propagates, the finite branch is the `fhypot` parameter. -/
def hypotF (fh : ℚ → ℚ → Fl) : Fl → Fl → Fl
  | Fl.inf, _ => Fl.inf
  | Fl.negInf, _ => Fl.inf
  | _, Fl.inf => Fl.inf
  | _, Fl.negInf => Fl.inf
  | Fl.nan, _ => Fl.nan
  | _, Fl.nan => Fl.nan
  | Fl.finite a, Fl.finite b => fh a b

/-- Host `atan2` (`num_traits::Float::atan2`, used by
`num_complex::Complex::arg`): NaN propagates; every non-NaN input pair
(finite or infinite) yields a finite result in `[-pi, pi]`, supplied by
the `fa` parameter. -/
def atan2F (fa : Fl → Fl → ℚ) (y x : Fl) : Fl :=
  if y = Fl.nan ∨ x = Fl.nan then Fl.nan else Fl.finite (fa y x)

/-!
Transcendental functions of `num_complex::Complex`, to which the complex
adapters delegate.  Each is the formula of the `num_complex` source,
re-expressed over the model operations.
-/

/-- Norm (absolute value) of a complex value, from `num_complex`
`Complex::norm`: `self.re.hypot(self.im)`. -/
def normC (H : HostFns) (z : Cx) : Fl := hypotF H.fhypot z.re z.im

/-- Argument of a complex value, from `num_complex` `Complex::arg`:
`self.im.atan2(self.re)`. -/
def argC (H : HostFns) (z : Cx) : Fl := atan2F H.fatan2 z.im z.re

/-- Polar reconstruction, from `num_complex` `Complex::from_polar`:
`Complex::new(r * theta.cos(), r * theta.sin())`. -/
def from_polarC (H : HostFns) (r theta : Fl) : Cx :=
  ⟨mulF r (cosF H.fcos theta), mulF r (sinF H.fsin theta)⟩

/-- Complex exponential, from `num_complex` `Complex::exp`:
`from_polar(self.re.exp(), self.im)`. -/
def expC (H : HostFns) (z : Cx) : Cx :=
  from_polarC H (expF H.fexp z.re) z.im

/-- Complex natural logarithm, from `num_complex` `Complex::ln`:
`Complex::new(norm.ln(), arg)`. -/
def lnC (H : HostFns) (z : Cx) : Cx :=
  ⟨lnF H.fln (normC H z), argC H z⟩

/-- Absolute value of a modelled float (`num_traits::Float::abs`), which
is exact in IEEE-754. -/
def absF : Fl → Fl
  | Fl.nan => Fl.nan
  | Fl.inf => Fl.inf
  | Fl.negInf => Fl.inf
  | Fl.finite q => Fl.finite |q|

/-- Complex square root, from `num_complex` `Complex::sqrt`: exact
handling on the axes (with the model's zero treated as `+0`), otherwise
the polar half-angle formula `from_polar(sqrt r, theta / 2)`. -/
def sqrtC (H : HostFns) (z : Cx) : Cx :=
  if z.im = Fl.finite 0 then
    if ltF z.re (Fl.finite 0) then
      ⟨Fl.finite 0, sqrtF H.fsqrt (negF z.re)⟩
    else
      ⟨sqrtF H.fsqrt z.re, z.im⟩
  else if z.re = Fl.finite 0 then
    (fun x => if ltF z.im (Fl.finite 0) then ⟨x, negF x⟩ else ⟨x, x⟩)
      (sqrtF H.fsqrt (divF (absF z.im) (Fl.finite 2)))
  else
    from_polarC H (sqrtF H.fsqrt (normC H z)) (divF (argC H z) (Fl.finite 2))

/-- Complex power with a real exponent, from `num_complex`
`Complex::powf`: `from_polar(norm.powf(exp), arg * exp)`. -/
def powfC (H : HostFns) (z : Cx) (n : Fl) : Cx :=
  from_polarC H (powfF H.fpow (normC H z) n) (mulF (argC H z) n)

/-- Complex power with a complex exponent, from `num_complex`
`Complex::powc`: `(exp * self.ln()).exp()`. -/
def powcC (H : HostFns) (z w : Cx) : Cx :=
  expC H (mulC w (lnC H z))

/-- Complex sine, from `num_complex` `Complex::sin`:
`Complex::new(re.sin() * im.cosh(), re.cos() * im.sinh())`. -/
def sinC (H : HostFns) (z : Cx) : Cx :=
  ⟨mulF (sinF H.fsin z.re) (coshF H.fcosh z.im),
   mulF (cosF H.fcos z.re) (sinhF H.fsinh z.im)⟩

/-- Complex cosine, from `num_complex` `Complex::cos`:
`Complex::new(re.cos() * im.cosh(), -re.sin() * im.sinh())`. -/
def cosC (H : HostFns) (z : Cx) : Cx :=
  ⟨mulF (cosF H.fcos z.re) (coshF H.fcosh z.im),
   mulF (negF (sinF H.fsin z.re)) (sinhF H.fsinh z.im)⟩

/-- Complex tangent, from `num_complex` `Complex::tan`:
`Complex::new((2re).sin(), (2im).sinh()).unscale((2re).cos() + (2im).cosh())`. -/
def tanC (H : HostFns) (z : Cx) : Cx :=
  unscaleC ⟨sinF H.fsin (addF z.re z.re), sinhF H.fsinh (addF z.im z.im)⟩
    (addF (cosF H.fcos (addF z.re z.re)) (coshF H.fcosh (addF z.im z.im)))

/-- Complex arcsine, from `num_complex` `Complex::asin`:
`-i * ((1 - z*z).sqrt() + i*z).ln()`. -/
def asinC (H : HostFns) (z : Cx) : Cx :=
  mulC (negC iC) (lnC H (addC (sqrtC H (subC oneC (mulC z z))) (mulC iC z)))

/-- Complex arccosine, from `num_complex` `Complex::acos`:
`-i * (i * (1 - z*z).sqrt() + z).ln()`. -/
def acosC (H : HostFns) (z : Cx) : Cx :=
  mulC (negC iC) (lnC H (addC (mulC iC (sqrtC H (subC oneC (mulC z z)))) z))

/-- Complex arctangent, from `num_complex` `Complex::atan`: the poles
`±i` map to `(0, ±inf)`, otherwise
`(ln(1 + i*z) - ln(1 - i*z)) * (-i/2)`. -/
def atanC (H : HostFns) (z : Cx) : Cx :=
  if z = iC then ⟨Fl.finite 0, Fl.inf⟩
  else if z = negC iC then ⟨Fl.finite 0, Fl.negInf⟩
  else
    mulC (subC (lnC H (addC oneC (mulC iC z))) (lnC H (subC oneC (mulC iC z))))
      (divC (negC iC) ⟨Fl.finite 2, Fl.finite 0⟩)

/-- Complex hyperbolic sine, from `num_complex` `Complex::sinh`:
`Complex::new(re.sinh() * im.cos(), re.cosh() * im.sin())`. -/
def sinhC (H : HostFns) (z : Cx) : Cx :=
  ⟨mulF (sinhF H.fsinh z.re) (cosF H.fcos z.im),
   mulF (coshF H.fcosh z.re) (sinF H.fsin z.im)⟩

/-- Complex hyperbolic cosine, from `num_complex` `Complex::cosh`:
`Complex::new(re.cosh() * im.cos(), re.sinh() * im.sin())`. -/
def coshC (H : HostFns) (z : Cx) : Cx :=
  ⟨mulF (coshF H.fcosh z.re) (cosF H.fcos z.im),
   mulF (sinhF H.fsinh z.re) (sinF H.fsin z.im)⟩

/-- Complex hyperbolic tangent, from `num_complex` `Complex::tanh`:
`Complex::new((2re).sinh(), (2im).sin()).unscale((2re).cosh() + (2im).cos())`. -/
def tanhC (H : HostFns) (z : Cx) : Cx :=
  unscaleC ⟨sinhF H.fsinh (addF z.re z.re), sinF H.fsin (addF z.im z.im)⟩
    (addF (coshF H.fcosh (addF z.re z.re)) (cosF H.fcos (addF z.im z.im)))

/-- Complex inverse hyperbolic sine, from `num_complex`
`Complex::asinh`: `(z + (1 + z*z).sqrt()).ln()`. -/
def asinhC (H : HostFns) (z : Cx) : Cx :=
  lnC H (addC z (sqrtC H (addC oneC (mulC z z))))

/-- Complex inverse hyperbolic cosine, from `num_complex`
`Complex::acosh`: `2 * (((z + 1)/2).sqrt() + ((z - 1)/2).sqrt()).ln()`. -/
def acoshC (H : HostFns) (z : Cx) : Cx :=
  mulC ⟨Fl.finite 2, Fl.finite 0⟩
    (lnC H (addC (sqrtC H (unscaleC (addC z oneC) (Fl.finite 2)))
      (sqrtC H (unscaleC (subC z oneC) (Fl.finite 2)))))

/-- Complex inverse hyperbolic tangent, from `num_complex`
`Complex::atanh`: the poles `±1` map to `(±inf, 0)`, otherwise
`((1 + z).ln() - (1 - z).ln()) / 2`. -/
def atanhC (H : HostFns) (z : Cx) : Cx :=
  if z = oneC then ⟨Fl.inf, Fl.finite 0⟩
  else if z = negC oneC then ⟨Fl.negInf, Fl.finite 0⟩
  else
    unscaleC (subC (lnC H (addC oneC z)) (lnC H (subC oneC z))) (Fl.finite 2)

/-!
Numeric-cast construction.  `Scalar::real` and `Scalar::complex`
(`src/lib.rs` lines 263-273 and 336-346) are
`NumCast::from(re).unwrap()`; the generic `Scalar::from` is
`num_traits::NumCast::from` itself, which returns an `Option`.  For a
float target and a float source, `num_traits` (0.2) converts with the
Rust `as` cast and always returns `Some`: the `as` cast rounds to
nearest, sending every value on or beyond the overflow threshold
`2^128 - 2^103` (the midpoint above `f32::MAX`) to infinity.  In-range
finite values are kept exact here (their rounding is below the
granularity of this model and irrelevant to the claims).
-/

/-- Largest finite `f32` value, `(2^24 - 1) * 2^104`. -/
def F32_MAX_Q : ℚ := (2 ^ 24 - 1) * 2 ^ 104

/-- Overflow threshold of the `f64` to `f32` rounding conversion: values
with magnitude at or above `2^128 - 2^103` convert to infinity. -/
def f32CastThreshold : ℚ := 2 ^ 128 - 2 ^ 103

/-- Model of the Rust `as` conversion from `f64` to `f32`: NaN and the
infinities pass through; finite values at or beyond the overflow
threshold saturate to the matching infinity; values between `f32::MAX`
and the threshold round down to `f32::MAX`; in-range values are kept
exact. -/
def f64_as_f32 : Fl → Fl
  | Fl.nan => Fl.nan
  | Fl.inf => Fl.inf
  | Fl.negInf => Fl.negInf
  | Fl.finite q =>
      if f32CastThreshold ≤ q then Fl.inf
      else if q ≤ -f32CastThreshold then Fl.negInf
      else if F32_MAX_Q < q then Fl.finite F32_MAX_Q
      else if q < -F32_MAX_Q then Fl.finite (-F32_MAX_Q)
      else Fl.finite q

/-- Model of `num_traits::NumCast::from::<f64>` with target `f32` (the
generic `Scalar::from` inherited from the `NumCast` supertrait bound,
`src/lib.rs` line 154): a float-to-float cast in `num_traits` 0.2 always
succeeds, returning `Some` of the `as`-converted value. -/
def numCast_f64_f32 (v : Fl) : Option Fl := some (f64_as_f32 v)

/-- Model of `Scalar::real::<f64>` for the 32-bit adapters (`src/lib.rs`
lines 263-266 and 336-339): `NumCast::from(re).unwrap()`.  The `getD`
default stands for the `unwrap` panic branch; it is dead code, since
`numCast_f64_f32` always returns `some` (theorem
`numCast_f64_f32_isSome`). -/
def f32_real (v : Fl) : Fl := (numCast_f64_f32 v).getD Fl.nan

/-- Model of `Scalar::complex::<f64>` for the 32-bit adapters
(`src/lib.rs` lines 267-273 and 340-346): both components are
`NumCast::from(..).unwrap()`. -/
def f32_complex (vre vim : Fl) : Cx := ⟨f32_real vre, f32_real vim⟩

/-- The float-to-float numeric cast never returns the absent-value
marker. -/
theorem numCast_f64_f32_isSome (v : Fl) : (numCast_f64_f32 v).isSome = true := rfl

/-!
The real adapters (`impl Scalar for f32` / `f64`, `src/lib.rs` lines
232-303).  Both widths share the model (exact rationals carry no width);
the width-specific parts of the library are the casts above and the
constant table below.
-/

namespace RealAd

/-- Real part of a real scalar (`src/lib.rs` line 237): the value
itself. -/
def re (v : Fl) : Fl := v

/-- Imaginary part of a real scalar (`src/lib.rs` line 241): the literal
`0.0`. -/
def im (_ : Fl) : Fl := Fl.finite 0

/-- Lift from the Real peer (`src/lib.rs` line 246): the identity. -/
def from_real (x : Fl) : Fl := x

/-- Conversion to the Complex peer (`src/lib.rs` line 275):
`Complex::new(*self, 0.0)`. -/
def as_c (v : Fl) : Cx := ⟨v, Fl.finite 0⟩

/-- Complex conjugate of a real scalar (`src/lib.rs` line 279): the
value itself. -/
def conj (v : Fl) : Fl := v

/-- Squared absolute value (`src/lib.rs` line 283): `self * self`. -/
def square (v : Fl) : Fl := mulF v v

/-- Repeated-multiplication power with a natural exponent, the semantics
of the LLVM `powi` intrinsic behind `num_traits::Float::powi`
(multiplication order is immaterial in the exact model). -/
def powu (v : Fl) : ℕ → Fl
  | 0 => Fl.finite 1
  | n + 1 => mulF v (powu v n)

/-- Integer power of a real scalar (`src/lib.rs` line 253):
`Float::powi(*self, n)`, i.e. the host's optimized
repeated-multiplication integer power, with a negative exponent handled
as the reciprocal of the positive power. -/
def powi (v : Fl) (n : ℤ) : Fl :=
  if n < 0 then divF (Fl.finite 1) (powu v (-n).toNat) else powu v n.toNat

/-- Real-exponent power of a real scalar (`src/lib.rs` line 256):
`Float::powf(*self, n)`. -/
def powf (H : HostFns) (v n : Fl) : Fl := powfF H.fpow v n

/-- Same-type power of a real scalar (`src/lib.rs` line 250):
`self.powf(n)`. -/
def pow (H : HostFns) (v n : Fl) : Fl := powf H v n

/-- Complex-exponent power of a real scalar (`src/lib.rs` line 259):
`self.as_c().powc(n)`. -/
def powc (H : HostFns) (v : Fl) (n : Cx) : Cx := powcC H (as_c v) n

end RealAd

/-!
The complex adapters (`impl Scalar for Complex32` / `Complex64`,
`src/lib.rs` lines 305-379).
-/

namespace CxAd

/-- Real part of a complex scalar (`src/lib.rs` line 310): the `re`
component. -/
def re (z : Cx) : Fl := z.re

/-- Imaginary part of a complex scalar (`src/lib.rs` line 314): the `im`
component. -/
def im (z : Cx) : Fl := z.im

/-- Lift from the Real peer (`src/lib.rs` line 319):
`Complex::new(re, Zero::zero())`. -/
def from_real (x : Fl) : Cx := ⟨x, Fl.finite 0⟩

/-- Conversion to the Complex peer (`src/lib.rs` line 348): the value
itself. -/
def as_c (z : Cx) : Cx := z

/-- Complex conjugate (`src/lib.rs` line 352): `Complex::conj`. -/
def conj (z : Cx) : Cx := conjC z

/-- Squared absolute value (`src/lib.rs` line 356):
`Complex::norm_sqr`. -/
def square (z : Cx) : Fl := norm_sqrC z

/-- Absolute value (`src/lib.rs` line 360): `Complex::norm`. -/
def abs (H : HostFns) (z : Cx) : Fl := normC H z

/-- Integer power of a complex scalar (`src/lib.rs` line 326): the code
computes it as `self.powf(n as Self::Real)` — the real-exponent power
with the exponent converted to a float (exact for every `i32`-sized
exponent in this model) — not as the host's integer power. -/
def powi (H : HostFns) (z : Cx) (n : ℤ) : Cx := powfC H z (Fl.finite (n : ℚ))

/-- Real-exponent power of a complex scalar (`src/lib.rs` line 329):
`Complex::powf`. -/
def powf (H : HostFns) (z : Cx) (n : Fl) : Cx := powfC H z n

/-- Complex-exponent power (`src/lib.rs` line 332): `Complex::powc`. -/
def powc (H : HostFns) (z w : Cx) : Cx := powcC H z w

/-- Same-type power of a complex scalar (`src/lib.rs` line 323):
`self.powc(n)`. -/
def pow (H : HostFns) (z w : Cx) : Cx := powc H z w

end CxAd

/-- Integer power of `num_complex::Complex` itself
(`Complex::powi`, exponentiation by repeated multiplication via `powu`,
with a negative exponent handled as `inv(powu(-n))`): the host
integer-power routine that `Scalar::powi` does NOT call for the complex
adapters. -/
def powuC (z : Cx) : ℕ → Cx
  | 0 => oneC
  | n + 1 => mulC z (powuC z n)

/-- Host complex integer power `num_complex::Complex::powi`. -/
def powiC_host (z : Cx) (n : ℤ) : Cx :=
  if n < 0 then invC (powuC z (-n).toNat) else powuC z n.toNat

/-- Mixed-type addition `f32 + Complex32` (and the 64-bit analogue),
from the `num_complex` real-arithmetic impl `impl Add<Complex<T>> for T`:
`Complex::new(self + other.re, other.im)`.  Its availability is what the
`NumOps<Self::Real, Self::Complex>` bound on `Scalar::Complex`
(`src/lib.rs` lines 165-167) requires. -/
def addRC (r : Fl) (z : Cx) : Cx := ⟨addF r z.re, z.im⟩

/-!
The `RealScalar` constant table (`src/lib.rs` lines 110-149) is pure
delegation: `impl_float_const` / `impl_float_math_const` bind each
associated constant to the `std::f32` / `std::f64` constant of the same
name.  The constants below are the exact rational values of those `std`
constants, written as they are independently known (exact decimal
expansions and, for pi, the value of the documented bit pattern
`0x40490FDB` / `0x400921FB54442D18`), so that comparing them with the
IEEE-754 formulas and with the real number pi is a genuine check.
-/

/-- Exact value of `std::f32::EPSILON` (the exact decimal expansion of
the documented value `1.19209290e-07`). -/
def f32_EPSILON : ℚ := 11920928955078125 / 10 ^ 23

/-- Exact value of `std::f64::EPSILON` (the exact decimal expansion of
the documented value `2.2204460492503131e-16`). -/
def f64_EPSILON : ℚ := 2220446049250313080847263336181640625 / 10 ^ 52

/-- Exact value of `std::f32::MAX`, the documented exact integer. -/
def f32_MAX : ℚ := 340282346638528859811704183484516925440

/-- Exact value of `std::f64::MAX`, the documented exact integer. -/
def f64_MAX : ℚ := 179769313486231570814527423731704356798070567525844996598917476803157260780028538760589558632766878171540458953514382464234321326889464182768467546703537516986049910576551282076245490090389328944075868508455133942304583236903222948165808559332123348274797826204144723168738177180919299881250404026184124858368

/-- Exact value of `std::f32::MIN_POSITIVE` (reciprocal of the exact
integer `2^126`). -/
def f32_MIN_POSITIVE : ℚ := 1 / 85070591730234615865843651857942052864

/-- Exact value of `std::f64::MIN_POSITIVE` (reciprocal of the exact
integer `2^1022`). -/
def f64_MIN_POSITIVE : ℚ := 1 / 44942328371557897693232629769725618340449424473557664318357520289433168951375240783177119330601884005280028469967848339414697442203604155623211857659868531094441973356216371319075554900311523529863270738021251442209537670585615720368478277635206809290837627671146574559986811484619929076208839082406056034304

/-- Exact value of `std::f32::consts::PI`, the value of the documented
bit pattern `0x40490FDB`: `13176795 * 2^-22`. -/
def f32_PI : ℚ := 13176795 / 4194304

/-- Exact value of `std::f64::consts::PI`, the value of the documented
bit pattern `0x400921FB54442D18`: `884279719003555 * 2^-48`. -/
def f64_PI : ℚ := 884279719003555 / 281474976710656

/-- A rational is a finite `f32` value iff it is `n * 2^e` with
`|n| < 2^24` and `-149 ≤ e ≤ 104` (IEEE-754 binary32: 24-bit
significand, exponents from the subnormal minimum to `MAX`). -/
def IsF32Finite (q : ℚ) : Prop :=
  ∃ n e : ℤ, |n| < 2 ^ 24 ∧ -149 ≤ e ∧ e ≤ 104 ∧ q = (n : ℚ) * 2 ^ e

/-- A rational is a finite `f64` value iff it is `n * 2^e` with
`|n| < 2^53` and `-1074 ≤ e ≤ 971` (IEEE-754 binary64). -/
def IsF64Finite (q : ℚ) : Prop :=
  ∃ n e : ℤ, |n| < 2 ^ 53 ∧ -1074 ≤ e ∧ e ≤ 971 ∧ q = (n : ℚ) * 2 ^ e

/-- Count how many of `x < y`, `x == y`, `x > y` hold under the IEEE-754
comparisons of the real adapters (the `PartialOrd` / `PartialEq`
supertrait bounds of `RealScalar`, `src/lib.rs` line 32). -/
def triCount (x y : Fl) : ℕ :=
  (cond (ltF x y) 1 0) + (cond (eqF x y) 1 0) + (cond (ltF y x) 1 0)

/-- A concrete, computable `HostFns` instance, used by the witness
theorems to discharge the host-contract hypotheses (it agrees with a
correctly-rounded host library at the few points the contracts
mention). -/
def dummyHost : HostFns where
  fsqrt := fun _ => 0
  fexp := fun _ => Fl.finite 1
  fln := fun _ => 0
  fsin := fun _ => 0
  fcos := fun _ => 1
  ftan := fun _ => 0
  fasin := fun _ => 0
  facos := fun _ => 0
  fatan := fun _ => 0
  fatanInf := 0
  fsinh := fun _ => Fl.finite 0
  fcosh := fun _ => Fl.finite 1
  ftanh := fun _ => 0
  fasinh := fun _ => 0
  facosh := fun _ => 0
  fatanh := fun _ => 0
  fpow := fun _ _ => Fl.finite 1
  fhypot := fun _ _ => Fl.finite 1
  fatan2 := fun _ _ => 0

/-- A modelled float is finite exactly when it carries a rational. -/
theorem Fl.isFinite_iff {v : Fl} : v.isFinite = true ↔ ∃ q, v = Fl.finite q := by
  cases v <;> simp [Fl.isFinite]

/-!
Claims.
-/

/-- Claim C5: mixed-type arithmetic promotes to the Complex peer — adding
a real value and a complex value yields a complex result whose real part
is the sum of the real value and the complex operand's real part and
whose imaginary part is the complex operand's imaginary part unchanged;
in particular `2.0 + (1.0+3.0i) == (3.0+3.0i)`.  The model covers both
bit-widths at once. -/
theorem c5_mixed_promotion :
    addRC (Fl.finite 2) ⟨Fl.finite 1, Fl.finite 3⟩ = ⟨Fl.finite 3, Fl.finite 3⟩ ∧
    ∀ (r : Fl) (z : Cx), (addRC r z).re = addF r z.re ∧ (addRC r z).im = z.im :=
  ⟨by norm_num [addRC, addF], fun _ _ => ⟨rfl, rfl⟩⟩

/-- Claim C7: `square` returns a Real-peer value equal to `v * v` on the
real adapters and to the norm square `re*re + im*im` on the complex
adapters (computed directly, with no square root); e.g.
`square(3+4i) = 25`. -/
theorem c7_square (v : Fl) (z : Cx) :
    RealAd.square v = mulF v v ∧
    CxAd.square z = addF (mulF z.re z.re) (mulF z.im z.im) ∧
    CxAd.square ⟨Fl.finite 3, Fl.finite 4⟩ = Fl.finite 25 :=
  ⟨rfl, rfl, by norm_num [CxAd.square, norm_sqrC, mulF, addF]⟩

/-- Claim C8: for all four adapters (the real and the complex
implementations, each at both widths), lifting a Real-peer value `x` with
`from_real` and decomposing gives `re = x` and `im = 0`. -/
theorem c8_lift_round_trip (x : Fl) :
    RealAd.re (RealAd.from_real x) = x ∧
    RealAd.im (RealAd.from_real x) = Fl.finite 0 ∧
    CxAd.re (CxAd.from_real x) = x ∧
    CxAd.im (CxAd.from_real x) = Fl.finite 0 :=
  ⟨rfl, rfl, rfl, rfl⟩

/-- Claim C10: on the real adapters `re` is the identity function — for
every value, finite or not — and therefore the `re` / `from_real` round
trip returns the value unchanged. -/
theorem c10_re_identity (v : Fl) :
    RealAd.re v = v ∧ RealAd.from_real (RealAd.re v) = v :=
  ⟨rfl, rfl⟩

/-- Claim C2 (code bug): the complex adapters do not compute `powi` by
the host's repeated-multiplication integer power.  The first conjunct
shows the code's routing: for every host library, every value and every
exponent, `Scalar::powi` on a complex adapter is exactly the
real-exponent `powf` path (`self.powf(n as Self::Real)`,
`src/lib.rs` line 327), a polar-form transcendental computation.  The
second conjunct evaluates the host's integer power
(`num_complex::Complex::powi`, repeated multiplication) at the failing
input `i^2`, giving exactly `-1 + 0i` — whereas on real hardware the
`powf` route returns a nonzero imaginary part for `i^2`. -/
theorem c2_powi_code_is_powf :
    (∀ (H : HostFns) (z : Cx) (n : ℤ), CxAd.powi H z n = CxAd.powf H z (Fl.finite (n : ℚ))) ∧
    powiC_host iC 2 = ⟨Fl.finite (-1), Fl.finite 0⟩ :=
  ⟨fun _ _ _ => rfl, by
    have h : powiC_host iC 2 = mulC iC (mulC iC oneC) := rfl
    rw [h]
    norm_num [mulC, mulF, addF, subF, negF, iC, oneC]⟩

/-- Claim C1, counterexample: casting the out-of-range `f64` value
`2^200` (far beyond the `f32` finite range) through the numeric-cast
constructors does NOT return the absent-value marker: the generic `from`
returns `some` of positive infinity (the `as`-cast saturates), and the
`real` / `complex` constructors unwrap it to infinity — a silently
saturated value, not an absent marker. -/
theorem c1_counterexample :
    numCast_f64_f32 (Fl.finite (2 ^ 200)) = some Fl.inf ∧
    numCast_f64_f32 (Fl.finite (2 ^ 200)) ≠ none ∧
    f32_real (Fl.finite (2 ^ 200)) = Fl.inf ∧
    f32_complex (Fl.finite (2 ^ 200)) (Fl.finite 0) = ⟨Fl.inf, Fl.finite 0⟩ := by
  have hc : f64_as_f32 (Fl.finite (2 ^ 200)) = Fl.inf := by
    norm_num [f64_as_f32, f32CastThreshold]
  have h0 : f64_as_f32 (Fl.finite 0) = Fl.finite 0 := by
    norm_num [f64_as_f32, f32CastThreshold, F32_MAX_Q]
  exact ⟨by simp [numCast_f64_f32, hc], by simp [numCast_f64_f32],
    by simp [f32_real, numCast_f64_f32, hc],
    by simp [f32_complex, f32_real, numCast_f64_f32, hc, h0]⟩

/-- Claim C1, amended: the generic `from` cast returns an `Option`, but
for float targets the float-to-float cast never fails — every source at
or beyond the overflow threshold converts to `some` infinity — and the
`real` / `complex` constructors unwrap that ever-present value, so an
out-of-range source yields infinity (no absent marker, no trap; the
unwrap panic branch is unreachable). -/
theorem c1_cast_saturates (q : ℚ) (h : f32CastThreshold ≤ q) :
    numCast_f64_f32 (Fl.finite q) = some Fl.inf ∧
    f32_real (Fl.finite q) = Fl.inf ∧
    f32_complex (Fl.finite q) (Fl.finite 0) = ⟨Fl.inf, Fl.finite 0⟩ ∧
    ∀ v : Fl, (numCast_f64_f32 v).isSome = true := by
  have hc : f64_as_f32 (Fl.finite q) = Fl.inf := by
    simp [f64_as_f32, if_pos h]
  have h0 : f64_as_f32 (Fl.finite 0) = Fl.finite 0 := by
    norm_num [f64_as_f32, f32CastThreshold, F32_MAX_Q]
  refine ⟨?_, ?_, ?_, fun v => rfl⟩
  · simp [numCast_f64_f32, hc]
  · simp [f32_real, numCast_f64_f32, hc]
  · simp [f32_complex, f32_real, numCast_f64_f32, hc, h0]

/-- Witness for `c1_cast_saturates` at the concrete out-of-range source
`2^200`. -/
theorem c1_cast_saturates_witness :
    f32CastThreshold ≤ (2 ^ 200 : ℚ) ∧
    (numCast_f64_f32 (Fl.finite (2 ^ 200)) = some Fl.inf ∧
     f32_real (Fl.finite (2 ^ 200)) = Fl.inf ∧
     f32_complex (Fl.finite (2 ^ 200)) (Fl.finite 0) = ⟨Fl.inf, Fl.finite 0⟩ ∧
     ∀ v : Fl, (numCast_f64_f32 v).isSome = true) :=
  ⟨by norm_num [f32CastThreshold],
   c1_cast_saturates (2 ^ 200) (by norm_num [f32CastThreshold])⟩

/-- Claim C3, counterexample: the comparison the `RealScalar` interface
requires is only a partial order — with `x = y = NaN`, none of `x < y`,
`x == y`, `x > y` holds, so the trichotomy fails. -/
theorem c3_counterexample :
    ltF Fl.nan Fl.nan = false ∧ eqF Fl.nan Fl.nan = false ∧
    triCount Fl.nan Fl.nan ≠ 1 := by
  decide

/-- Claim C3, amended: on non-NaN values of a real adapter, exactly one
of `x < y`, `x == y`, `x > y` holds. -/
theorem c3_trichotomy (x y : Fl) (hx : x ≠ Fl.nan) (hy : y ≠ Fl.nan) :
    triCount x y = 1 := by
  cases x with
  | nan => exact absurd rfl hx
  | inf =>
    cases y with
    | nan => exact absurd rfl hy
    | inf => rfl
    | negInf => rfl
    | finite b => rfl
  | negInf =>
    cases y with
    | nan => exact absurd rfl hy
    | inf => rfl
    | negInf => rfl
    | finite b => rfl
  | finite a =>
    cases y with
    | nan => exact absurd rfl hy
    | inf => rfl
    | negInf => rfl
    | finite b =>
      rcases lt_trichotomy a b with h | h | h
      · have h1 : ltF (Fl.finite a) (Fl.finite b) = true := by simp [ltF, h]
        have h2 : eqF (Fl.finite a) (Fl.finite b) = false := by simp [eqF, h.ne]
        have h3 : ltF (Fl.finite b) (Fl.finite a) = false := by simp [ltF, h.asymm]
        simp [triCount, h1, h2, h3]
      · subst h
        have h1 : ltF (Fl.finite a) (Fl.finite a) = false := by simp [ltF]
        have h2 : eqF (Fl.finite a) (Fl.finite a) = true := by simp [eqF]
        simp [triCount, h1, h2]
      · have h1 : ltF (Fl.finite a) (Fl.finite b) = false := by simp [ltF, h.asymm]
        have h2 : eqF (Fl.finite a) (Fl.finite b) = false := by simp [eqF, h.ne.symm]
        have h3 : ltF (Fl.finite b) (Fl.finite a) = true := by simp [ltF, h]
        simp [triCount, h1, h2, h3]

/-- Witness for `c3_trichotomy` on the pair `1.0 < 2.0`. -/
theorem c3_trichotomy_witness :
    (Fl.finite 1 ≠ Fl.nan ∧ Fl.finite 2 ≠ Fl.nan) ∧
    triCount (Fl.finite 1) (Fl.finite 2) = 1 :=
  ⟨⟨by simp, by simp⟩,
   c3_trichotomy (Fl.finite 1) (Fl.finite 2) (by simp) (by simp)⟩

/-- Claim C6: for every adapter and every finite value (zero included),
`powi(v, 0)` is the multiplicative identity.  On the real adapters the
repeated-multiplication power returns `1` before touching the base; on
the complex adapters the `powf` route also lands on `1 + 0i`, because
the IEEE-754 rule `pow(x, 0) = 1` absorbs the norm, the argument times
the zero exponent is an exact zero, and the host's `cos 0 = 1` and
`sin 0 = 0` are exact (the two host-contract hypotheses, true of any
faithfully-rounded library). -/
theorem c6_powi_zero (H : HostFns) (hcos : H.fcos 0 = 1) (hsin : H.fsin 0 = 0)
    (v : Fl) (_hv : v.isFinite = true) (z : Cx)
    (hre : z.re.isFinite = true) (him : z.im.isFinite = true) :
    RealAd.powi v 0 = Fl.finite 1 ∧ CxAd.powi H z 0 = oneC := by
  refine ⟨rfl, ?_⟩
  obtain ⟨a, ha⟩ := Fl.isFinite_iff.mp hre
  obtain ⟨b, hb⟩ := Fl.isFinite_iff.mp him
  simp [CxAd.powi, powfC, powfF, from_polarC, argC, atan2F, normC, cosF, sinF,
    mulF, hcos, hsin, ha, hb, oneC]

/-- Witness for `c6_powi_zero` with the concrete host instance
`dummyHost`, the real value `2.0` and the complex value `3 - 4i`. -/
theorem c6_powi_zero_witness :
    (dummyHost.fcos 0 = 1 ∧ dummyHost.fsin 0 = 0 ∧
     (Fl.finite 2).isFinite = true ∧
     (Fl.finite 3).isFinite = true ∧ (Fl.finite (-4)).isFinite = true) ∧
    (RealAd.powi (Fl.finite 2) 0 = Fl.finite 1 ∧
     CxAd.powi dummyHost ⟨Fl.finite 3, Fl.finite (-4)⟩ 0 = oneC) :=
  ⟨⟨rfl, rfl, rfl, rfl, rfl⟩,
   c6_powi_zero dummyHost rfl rfl (Fl.finite 2) rfl
     ⟨Fl.finite 3, Fl.finite (-4)⟩ rfl rfl⟩

/-- The unary real-adapter operations of the `Scalar` interface with a
given host library: the fifteen delegated transcendentals (`impl_float`
macro, `src/lib.rs` lines 212-219, instantiated at lines 287-302)
together with `abs`, `conj`, `square`, `re`, `im` and `from_real`. -/
def realUnaryOps (H : HostFns) : List (Fl → Fl) :=
  [sqrtF H.fsqrt, expF H.fexp, lnF H.fln, sinF H.fsin, cosF H.fcos,
   tanF H.ftan, asinF H.fasin, acosF H.facos, atanF H.fatan H.fatanInf,
   sinhF H.fsinh, coshF H.fcosh, tanhF H.ftanh, asinhF H.fasinh,
   acoshF H.facosh, atanhF H.fatanh, absF, RealAd.conj, RealAd.square,
   RealAd.re, RealAd.im, RealAd.from_real]

/-- The unary complex-adapter operations returning complex values: the
fifteen delegated transcendentals (`impl_complex` macro, `src/lib.rs`
lines 221-228, instantiated at lines 364-378) together with `conj` and
`as_c`. -/
def cxUnaryOps (H : HostFns) : List (Cx → Cx) :=
  [sqrtC H, expC H, lnC H, sinC H, cosC H, tanC H, asinC H, acosC H,
   atanC H, sinhC H, coshC H, tanhC H, asinhC H, acoshC H, atanhC H,
   CxAd.conj, CxAd.as_c]

/-- The complex-adapter operations returning Real-peer values
(`square`, `abs`, `re`, `im`). -/
def cxToRealOps (H : HostFns) : List (Cx → Fl) :=
  [CxAd.square, CxAd.abs H, CxAd.re, CxAd.im]

/-- Claim C4: with any host library, every arithmetic and transcendental
operation of the interface is a pure total function — each operation in
the real and complex operation lists, and each arithmetic / power
operation, returns a value for every input, with no error channel in its
type — and out-of-domain arguments produce the IEEE-754 special values
(`sqrt(-1) = NaN`, `ln 0 = -inf`, NaN propagates through arithmetic,
`1/0 = inf`, `0/0 = NaN`). -/
theorem c4_total_ieee (H : HostFns) :
    (∀ op ∈ realUnaryOps H, ∀ v : Fl, ∃ w : Fl, op v = w) ∧
    (∀ op ∈ cxUnaryOps H, ∀ z : Cx, ∃ w : Cx, op z = w) ∧
    (∀ op ∈ cxToRealOps H, ∀ z : Cx, ∃ w : Fl, op z = w) ∧
    (∀ v w : Fl, ∃ u : Fl, addF v w = u) ∧
    (∀ v w : Fl, ∃ u : Fl, subF v w = u) ∧
    (∀ v w : Fl, ∃ u : Fl, mulF v w = u) ∧
    (∀ v w : Fl, ∃ u : Fl, divF v w = u) ∧
    (∀ v n : Fl, ∃ u : Fl, RealAd.powf H v n = u) ∧
    (∀ (v : Fl) (n : ℤ), ∃ u : Fl, RealAd.powi v n = u) ∧
    (∀ (v : Fl) (n : Cx), ∃ u : Cx, RealAd.powc H v n = u) ∧
    (∀ (z : Cx) (n : ℤ), ∃ u : Cx, CxAd.powi H z n = u) ∧
    (∀ z w : Cx, ∃ u : Cx, CxAd.powc H z w = u) ∧
    sqrtF H.fsqrt (Fl.finite (-1)) = Fl.nan ∧
    lnF H.fln (Fl.finite 0) = Fl.negInf ∧
    sqrtF H.fsqrt Fl.nan = Fl.nan ∧
    expF H.fexp Fl.nan = Fl.nan ∧
    (∀ v : Fl, addF Fl.nan v = Fl.nan) ∧
    (∀ v : Fl, mulF Fl.nan v = Fl.nan) ∧
    divF (Fl.finite 1) (Fl.finite 0) = Fl.inf ∧
    divF (Fl.finite 0) (Fl.finite 0) = Fl.nan := by
  refine ⟨fun op _ v => ⟨op v, rfl⟩, fun op _ z => ⟨op z, rfl⟩,
    fun op _ z => ⟨op z, rfl⟩,
    fun v w => ⟨addF v w, rfl⟩, fun v w => ⟨subF v w, rfl⟩,
    fun v w => ⟨mulF v w, rfl⟩, fun v w => ⟨divF v w, rfl⟩,
    fun v n => ⟨RealAd.powf H v n, rfl⟩, fun v n => ⟨RealAd.powi v n, rfl⟩,
    fun v n => ⟨RealAd.powc H v n, rfl⟩, fun z n => ⟨CxAd.powi H z n, rfl⟩,
    fun z w => ⟨CxAd.powc H z w, rfl⟩,
    by norm_num [sqrtF], by norm_num [lnF], rfl, rfl,
    fun v => by cases v <;> rfl, fun v => by cases v <;> rfl,
    by norm_num [divF], by norm_num [divF]⟩

/-!
Helper lemmas for the constant-table claim: the values of the `std` pi
constants are the round-to-nearest representations of the real number pi
at their bit-widths.  A value on the `2^-k` grid within half a grid step
of pi is strictly closer to pi than every other grid point, and every
`f32` / `f64` representable value above `2` lies on the respective grid.
-/

/-- The value of `std::f32::consts::PI` is within half an ulp of the
binade `[2, 4)` — half of `2^-22` — of the real number pi. -/
lemma f32_PI_close : |Real.pi - ((f32_PI : ℚ) : ℝ)| < 1 / 2 ^ 23 := by
  have h1 := Real.pi_gt_d20
  have h2 := Real.pi_lt_d20
  have e : ((f32_PI : ℚ) : ℝ) = 13176795 / 4194304 := by
    norm_num [f32_PI]
  rw [e, abs_sub_lt_iff]
  norm_num at h1 h2 ⊢
  constructor <;> linarith

/-- The value of `std::f64::consts::PI` is within half an ulp of the
binade `[2, 4)` — half of `2^-51` — of the real number pi. -/
lemma f64_PI_close : |Real.pi - ((f64_PI : ℚ) : ℝ)| < 1 / 2 ^ 52 := by
  have h1 := Real.pi_gt_d20
  have h2 := Real.pi_lt_d20
  have e : ((f64_PI : ℚ) : ℝ) = 884279719003555 / 281474976710656 := by
    norm_num [f64_PI]
  rw [e, abs_sub_lt_iff]
  norm_num at h1 h2 ⊢
  constructor <;> linarith

/-- On the grid of multiples of `2^-k`, a point within half a grid step
of pi is strictly closer to pi than any other grid point. -/
lemma nearest_on_grid (k : ℕ) (t q : ℚ) (m n : ℤ)
    (ht : t = (m : ℚ) / 2 ^ k) (hq : q = (n : ℚ) / 2 ^ k) (hne : q ≠ t)
    (hclose : |Real.pi - (t : ℝ)| < 1 / 2 ^ (k + 1)) :
    |Real.pi - (t : ℝ)| < |Real.pi - (q : ℝ)| := by
  have hmn : n ≠ m := by
    rintro rfl
    exact hne (by rw [ht, hq])
  have h1 : (1 : ℝ) ≤ |(n : ℝ) - (m : ℝ)| := by
    have h0 : (0 : ℤ) < |n - m| := abs_pos.mpr (sub_ne_zero.mpr hmn)
    have h1ints : (1 : ℤ) ≤ |n - m| := by omega
    calc (1 : ℝ) = ((1 : ℤ) : ℝ) := by norm_num
    _ ≤ ((|n - m| : ℤ) : ℝ) := by exact_mod_cast h1ints
    _ = |(n : ℝ) - (m : ℝ)| := by push_cast; ring_nf
  have hpow : (0 : ℝ) < 2 ^ k := by positivity
  have hdist : (1 : ℝ) / 2 ^ k ≤ |(q : ℝ) - (t : ℝ)| := by
    have hqt : (q : ℝ) - (t : ℝ) = ((n : ℝ) - m) / 2 ^ k := by
      rw [hq, ht]; push_cast; ring
    rw [hqt, abs_div, abs_of_pos hpow]
    exact div_le_div_of_nonneg_right h1 hpow.le
  have tri : |(q : ℝ) - (t : ℝ)| ≤ |Real.pi - (q : ℝ)| + |Real.pi - (t : ℝ)| := by
    have h := abs_sub_le ((q : ℝ)) Real.pi ((t : ℝ))
    rwa [abs_sub_comm (q : ℝ) Real.pi] at h
  have hstep : (1 : ℝ) / 2 ^ k = 2 * (1 / 2 ^ (k + 1)) := by
    rw [pow_succ]; field_simp
  linarith

/-- Every representable value above `2` lies on the `2^-k` grid whenever
the significand width is at most `k + 2` (for binary32, `24 ≤ 22 + 2`;
for binary64, `53 ≤ 51 + 2`): a smaller exponent would force the value
below `2`. -/
lemma grid_core (mant k : ℕ) (hmk : mant ≤ k + 2) (n e : ℤ)
    (hn : |n| < 2 ^ mant) (h2 : 2 < (n : ℚ) * 2 ^ e) :
    ∃ m : ℤ, (n : ℚ) * 2 ^ e = (m : ℚ) / 2 ^ k := by
  by_cases he : -(k : ℤ) ≤ e
  · refine ⟨n * 2 ^ (e + k).toNat, ?_⟩
    have hek : (((e + k).toNat : ℕ) : ℤ) = e + k := Int.toNat_of_nonneg (by linarith)
    have key : ((n * 2 ^ (e + k).toNat : ℤ) : ℚ) / 2 ^ k = (n : ℚ) * 2 ^ e := by
      push_cast
      rw [← zpow_natCast (2 : ℚ) (e + k).toNat, ← zpow_natCast (2 : ℚ) k, hek,
        mul_div_assoc, ← zpow_sub₀ (two_ne_zero)]
      norm_num
    exact key.symm
  · exfalso
    push_neg at he
    have he2 : e ≤ -(k : ℤ) - 1 := by omega
    have hpe : (2 : ℚ) ^ e ≤ 2 ^ (-(k : ℤ) - 1) :=
      zpow_le_zpow_right₀ (by norm_num) he2
    have hpepos : (0 : ℚ) < 2 ^ e := by positivity
    have hnq : (n : ℚ) ≤ 2 ^ mant := by
      have ha : (n : ℚ) ≤ |(n : ℚ)| := le_abs_self _
      have hb : |(n : ℚ)| < 2 ^ mant := by exact_mod_cast hn
      linarith
    have hmul : (n : ℚ) * 2 ^ e ≤ 2 ^ mant * 2 ^ (-(k : ℤ) - 1) := by
      calc (n : ℚ) * 2 ^ e ≤ 2 ^ mant * 2 ^ e := by
            apply mul_le_mul_of_nonneg_right hnq (le_of_lt hpepos)
      _ ≤ 2 ^ mant * 2 ^ (-(k : ℤ) - 1) := by
            apply mul_le_mul_of_nonneg_left hpe (by positivity)
    have hfin : (2 : ℚ) ^ mant * 2 ^ (-(k : ℤ) - 1) ≤ 2 := by
      rw [← zpow_natCast (2 : ℚ) mant, ← zpow_add₀ (two_ne_zero)]
      calc (2 : ℚ) ^ ((mant : ℤ) + (-(k : ℤ) - 1)) ≤ 2 ^ (1 : ℤ) := by
            apply zpow_le_zpow_right₀ (by norm_num)
            have : (mant : ℤ) ≤ (k : ℤ) + 2 := by exact_mod_cast hmk
            omega
      _ = 2 := by norm_num
    linarith

/-- A representable value is either at most `2` (and then farther from
pi than the half-ulp-close grid point) or on the grid; either way the
grid point within half an ulp of pi is strictly closer. -/
lemma nearest_pi_of_repr (k mant : ℕ) (hmk : mant ≤ k + 2) (N : ℤ) (t : ℚ)
    (ht : t = (N : ℚ) / 2 ^ k) (hclose : |Real.pi - (t : ℝ)| < 1 / 2 ^ (k + 1))
    (q : ℚ) (n e : ℤ) (hn : |n| < 2 ^ mant) (hq : q = (n : ℚ) * 2 ^ e)
    (hne : q ≠ t) :
    |Real.pi - (t : ℝ)| < |Real.pi - (q : ℝ)| := by
  rcases le_or_lt q 2 with hle | hgt
  · have hπ3 := Real.pi_gt_three
    have hq2 : (q : ℝ) ≤ 2 := by exact_mod_cast hle
    have habs : Real.pi - (q : ℝ) ≤ |Real.pi - (q : ℝ)| := le_abs_self _
    have hk1 : (1 : ℝ) / 2 ^ (k + 1) ≤ 1 := by
      rw [div_le_one (by positivity)]
      exact one_le_pow₀ (by norm_num)
    linarith
  · obtain ⟨m, hm⟩ := grid_core mant k hmk n e hn (hq ▸ hgt)
    exact nearest_on_grid k t q N m ht (hq.trans hm) hne hclose

/-- The value of `std::f32::consts::PI` is a finite `f32` value. -/
lemma f32_PI_repr : IsF32Finite f32_PI := by
  refine ⟨13176795, -22, by norm_num, by norm_num, by norm_num, ?_⟩
  rw [show ((-22 : ℤ)) = -(22 : ℤ) from rfl, zpow_neg]
  norm_num [f32_PI]

/-- The value of `std::f64::consts::PI` is a finite `f64` value. -/
lemma f64_PI_repr : IsF64Finite f64_PI := by
  refine ⟨7074237752028440, -51, by norm_num, by norm_num, by norm_num, ?_⟩
  rw [show ((-51 : ℤ)) = -(51 : ℤ) from rfl, zpow_neg]
  norm_num [f64_PI]

/-- Claim C9: the `RealScalar` constants are exact for their bit-width —
`EPSILON`, `MAX` and `MIN_POSITIVE` equal the IEEE-754 standard values
`2^(1-p)`, `(2 - 2^(1-p)) * 2^emax` and `2^(emin)` for the respective
width, and `PI` is a representable value that is strictly closer to the
real number pi than every other representable value of its width, i.e.
the IEEE-754 round-to-nearest representation of pi. -/
theorem c9_constant_table :
    f32_EPSILON = 1 / 2 ^ 23 ∧ f64_EPSILON = 1 / 2 ^ 52 ∧
    f32_MAX = (2 - 1 / 2 ^ 23) * 2 ^ 127 ∧
    f64_MAX = (2 - 1 / 2 ^ 52) * 2 ^ 1023 ∧
    f32_MIN_POSITIVE = 1 / 2 ^ 126 ∧ f64_MIN_POSITIVE = 1 / 2 ^ 1022 ∧
    IsF32Finite f32_PI ∧
    (∀ q : ℚ, IsF32Finite q → q ≠ f32_PI →
      |Real.pi - ((f32_PI : ℚ) : ℝ)| < |Real.pi - ((q : ℚ) : ℝ)|) ∧
    IsF64Finite f64_PI ∧
    (∀ q : ℚ, IsF64Finite q → q ≠ f64_PI →
      |Real.pi - ((f64_PI : ℚ) : ℝ)| < |Real.pi - ((q : ℚ) : ℝ)|) := by
  refine ⟨by norm_num [f32_EPSILON], by norm_num [f64_EPSILON],
    by norm_num [f32_MAX], by norm_num [f64_MAX],
    by norm_num [f32_MIN_POSITIVE], by norm_num [f64_MIN_POSITIVE],
    f32_PI_repr, ?_, f64_PI_repr, ?_⟩
  · rintro q ⟨n, e, hn, -, -, hq⟩ hne
    exact nearest_pi_of_repr 22 24 (by norm_num) 13176795 f32_PI
      (by norm_num [f32_PI]) f32_PI_close q n e hn hq hne
  · rintro q ⟨n, e, hn, -, -, hq⟩ hne
    exact nearest_pi_of_repr 51 53 (by norm_num) 7074237752028440 f64_PI
      (by norm_num [f64_PI]) f64_PI_close q n e hn hq hne

end Cauchy
